import Mathlib

set_option maxHeartbeats 1000000

/-!
Verification development for the DrugLikenZ batch drug-likeness screener
(src/main.py).  The core backend is embedded shallowly: the descriptor
vector, the rule evaluator `evaluate_compound_rules`, the accepted-candidate
filter `filter_accepted_candidates`, and the screening pipeline of
`App.run_screening` (deduplication, the per-row loop, the compliance
projection and its chunking).  Real-valued RDKit descriptors are modelled as
rationals and counts as integers; external collaborators (the RDKit toolkit
and the PubChem name resolver) are explicit parameters.
-/

/-- The descriptor vector built by `calculate_properties` in src/main.py:
molecular weight, H-bond acceptors/donors, LogP, rotatable bonds, polar
surface area, ring count, carbon count and heteroatom count. -/
structure Props where
  MW : ℚ
  HBA : ℤ
  HBD : ℤ
  LogP : ℚ
  ROTB : ℤ
  PSA : ℚ
  NumRings : ℤ
  NumCarbons : ℤ
  NumHeteroatoms : ℤ
deriving DecidableEq

/-- The first entry of `rule_options` in src/main.py. -/
def lipinskiRule : String := "Lipinski\x27s Rule of Five"

/-- The second entry of `rule_options` in src/main.py. -/
def ro3Rule : String := "Miles Congreve et al. RO3"

/-- The third entry of `rule_options` in src/main.py. -/
def mueggeRule : String := "Muegge method"

/-- The fourth entry of `rule_options` in src/main.py. -/
def veberRule : String := "The rules of Veber et al."

/-- `evaluate_compound_rules(props, rule_name)` from src/main.py: the ordered
compliance mapping (sub-criterion label to boolean) and the overall
accept/reject decision.  The Python dict preserves insertion order, so it is
modelled as an association list; `sum(compliance_results.values()) >= 3`
becomes a countP over the booleans, `all(...)` becomes `List.all`.  When no
branch of the if/elif chain matches, the initial values `{}` and `False` are
returned. -/
def evaluate_compound_rules (props : Props) (rule_name : String) :
    List (String × Bool) × Bool :=
  if rule_name = lipinskiRule then
    let compliance_results : List (String × Bool) :=
      [("MW <= 500", decide (props.MW ≤ 500)),
       ("HBA <= 10", decide (props.HBA ≤ 10)),
       ("HBD <= 5", decide (props.HBD ≤ 5)),
       ("LogP <= 5", decide (props.LogP ≤ 5))]
    (compliance_results, decide (3 ≤ compliance_results.countP (fun kv => kv.2)))
  else if rule_name = ro3Rule then
    let compliance_results : List (String × Bool) :=
      [("MW < 300", decide (props.MW < 300)),
       ("ROTB <= 3", decide (props.ROTB ≤ 3)),
       ("HBA <= 3", decide (props.HBA ≤ 3)),
       ("HBD <= 3", decide (props.HBD ≤ 3)),
       ("LogP <= 3", decide (props.LogP ≤ 3)),
       ("PSA <= 60", decide (props.PSA ≤ 60))]
    (compliance_results, compliance_results.all (fun kv => kv.2))
  else if rule_name = mueggeRule then
    let compliance_results : List (String × Bool) :=
      [("MW in [200, 600]", decide (200 ≤ props.MW) && decide (props.MW ≤ 600)),
       ("LogP in [-2, 5]", decide (-2 ≤ props.LogP) && decide (props.LogP ≤ 5)),
       ("PSA <= 150", decide (props.PSA ≤ 150)),
       ("Rings <= 7", decide (props.NumRings ≤ 7)),
       ("Carbons > 4", decide (props.NumCarbons > 4)),
       ("Heteroatoms > 1", decide (props.NumHeteroatoms > 1)),
       ("ROTB <= 15", decide (props.ROTB ≤ 15)),
       ("HBA <= 10", decide (props.HBA ≤ 10)),
       ("HBD <= 5", decide (props.HBD ≤ 5))]
    (compliance_results, compliance_results.all (fun kv => kv.2))
  else if rule_name = veberRule then
    let compliance_results : List (String × Bool) :=
      [("ROTB <= 10", decide (props.ROTB ≤ 10)),
       ("PSA <= 140", decide (props.PSA ≤ 140))]
    (compliance_results, compliance_results.all (fun kv => kv.2))
  else ([], false)

/-- Claim C1: under the Lipinski rule the evaluation produces exactly the four
sub-criteria MW <= 500, HBA <= 10, HBD <= 5, LogP <= 5, each a non-strict
comparison, and the compound is accepted iff at least 3 of the 4 sub-criteria
hold (stated as the disjunction over the four 3-element subsets); in
particular, boundary-equal values MW = 500, HBA = 10, HBD = 5, LogP = 5 make
all four sub-criteria true and the compound accepted. -/
theorem lipinski_three_of_four (p : Props) :
    (evaluate_compound_rules p lipinskiRule).1 =
      [("MW <= 500", decide (p.MW ≤ 500)),
       ("HBA <= 10", decide (p.HBA ≤ 10)),
       ("HBD <= 5", decide (p.HBD ≤ 5)),
       ("LogP <= 5", decide (p.LogP ≤ 5))] ∧
    ((evaluate_compound_rules p lipinskiRule).2 = true ↔
      ((p.HBA ≤ 10 ∧ p.HBD ≤ 5 ∧ p.LogP ≤ 5) ∨
       (p.MW ≤ 500 ∧ p.HBD ≤ 5 ∧ p.LogP ≤ 5) ∨
       (p.MW ≤ 500 ∧ p.HBA ≤ 10 ∧ p.LogP ≤ 5) ∨
       (p.MW ≤ 500 ∧ p.HBA ≤ 10 ∧ p.HBD ≤ 5))) ∧
    (p.MW = 500 → p.HBA = 10 → p.HBD = 5 → p.LogP = 5 →
      (evaluate_compound_rules p lipinskiRule).2 = true ∧
      ∀ kv ∈ (evaluate_compound_rules p lipinskiRule).1, kv.2 = true) := by
  refine ⟨by simp [evaluate_compound_rules], ?_, ?_⟩
  · simp only [evaluate_compound_rules, if_pos rfl]
    by_cases h1 : p.MW ≤ 500 <;> by_cases h2 : p.HBA ≤ 10 <;>
      by_cases h3 : p.HBD ≤ 5 <;> by_cases h4 : p.LogP ≤ 5 <;>
      simp [h1, h2, h3, h4, List.countP_cons]
  · intro h1 h2 h3 h4
    simp [evaluate_compound_rules, h1, h2, h3, h4, List.countP_cons]

/-- Witness for C1: the all-boundary descriptor vector is accepted under
Lipinski with every sub-criterion true. -/
theorem lipinski_three_of_four_witness :
    (evaluate_compound_rules ⟨500, 10, 5, 5, 0, 0, 0, 0, 0⟩ lipinskiRule).2 = true :=
  ((lipinski_three_of_four ⟨500, 10, 5, 5, 0, 0, 0, 0, 0⟩).2.2 rfl rfl rfl rfl).1

/-- Claim C2: Ro3, Muegge and Veber accept iff ALL of their listed
sub-criteria hold, with the exact thresholds of the table; the Ro3
molecular-weight sub-criterion is a strict MW < 300, so a descriptor vector
with MW exactly 300 has that sub-criterion false and is rejected. -/
theorem all_pass_rules (p : Props) :
    ((evaluate_compound_rules p ro3Rule).2 = true ↔
      (p.MW < 300 ∧ p.ROTB ≤ 3 ∧ p.HBA ≤ 3 ∧ p.HBD ≤ 3 ∧ p.LogP ≤ 3 ∧ p.PSA ≤ 60)) ∧
    ((evaluate_compound_rules p mueggeRule).2 = true ↔
      (200 ≤ p.MW ∧ p.MW ≤ 600 ∧ -2 ≤ p.LogP ∧ p.LogP ≤ 5 ∧ p.PSA ≤ 150 ∧
       p.NumRings ≤ 7 ∧ 4 < p.NumCarbons ∧ 1 < p.NumHeteroatoms ∧
       p.ROTB ≤ 15 ∧ p.HBA ≤ 10 ∧ p.HBD ≤ 5)) ∧
    ((evaluate_compound_rules p veberRule).2 = true ↔ (p.ROTB ≤ 10 ∧ p.PSA ≤ 140)) ∧
    (p.MW = 300 →
      ("MW < 300", false) ∈ (evaluate_compound_rules p ro3Rule).1 ∧
      (evaluate_compound_rules p ro3Rule).2 = false) := by
  have hro3 : ro3Rule ≠ lipinskiRule := by decide
  have hmu1 : mueggeRule ≠ lipinskiRule := by decide
  have hmu2 : mueggeRule ≠ ro3Rule := by decide
  have hve1 : veberRule ≠ lipinskiRule := by decide
  have hve2 : veberRule ≠ ro3Rule := by decide
  have hve3 : veberRule ≠ mueggeRule := by decide
  refine ⟨?_, ?_, ?_, ?_⟩
  · simp [evaluate_compound_rules, hro3, and_assoc]
  · simp [evaluate_compound_rules, hmu1, hmu2, and_assoc]
  · simp [evaluate_compound_rules, hve1, hve2, hve3, and_assoc]
  · intro h300
    constructor
    · simp [evaluate_compound_rules, hro3, h300]
    · have : ¬ (p.MW < 300) := by rw [h300]; exact lt_irrefl _
      simp [evaluate_compound_rules, hro3, this]

/-- Witness for C2: a descriptor vector with MW exactly 300 (all other Ro3
descriptors well inside their thresholds) has the MW sub-criterion false and
is rejected by Ro3. -/
theorem all_pass_rules_witness :
    ("MW < 300", false) ∈ (evaluate_compound_rules ⟨300, 3, 3, 3, 3, 60, 0, 0, 0⟩ ro3Rule).1 ∧
    (evaluate_compound_rules ⟨300, 3, 3, 3, 3, 60, 0, 0, 0⟩ ro3Rule).2 = false :=
  (all_pass_rules ⟨300, 3, 3, 3, 3, 60, 0, 0, 0⟩).2.2.2 rfl

/-- Claim C9: on a rule identifier that is none of the four built-in rule
names, the evaluation is total and returns the empty compliance map together
with accepted = false. -/
theorem unknown_rule_empty (p : Props) (r : String)
    (h1 : r ≠ lipinskiRule) (h2 : r ≠ ro3Rule) (h3 : r ≠ mueggeRule) (h4 : r ≠ veberRule) :
    evaluate_compound_rules p r = ([], false) := by
  simp [evaluate_compound_rules, h1, h2, h3, h4]

/-- Witness for C9: the unrecognised rule name "foo" yields the empty
compliance map and rejection. -/
theorem unknown_rule_empty_witness :
    evaluate_compound_rules ⟨0, 0, 0, 0, 0, 0, 0, 0, 0⟩ "foo" = ([], false) :=
  unknown_rule_empty ⟨0, 0, 0, 0, 0, 0, 0, 0, 0⟩ "foo"
    (by decide) (by decide) (by decide) (by decide)

/-! ## The external chemistry toolkit and `calculate_properties` -/

/-- The RDKit collaborator used by `calculate_properties` in src/main.py:
`Chem.MolFromSmiles` (None on a parse failure, modelled as `Option`) and the
descriptor functions applied to the parsed molecule. -/
structure Toolkit (Mol : Type) where
  molFromSmiles : String → Option Mol
  molWt : Mol → ℚ
  numHAcceptors : Mol → ℤ
  numHDonors : Mol → ℤ
  molLogP : Mol → ℚ
  numRotatableBonds : Mol → ℤ
  calcTPSA : Mol → ℚ
  ringCount : Mol → ℤ
  getNumAtoms : Mol → ℤ
  numHeteroatoms : Mol → ℤ

/-- `calculate_properties(smiles)` from src/main.py: parse the SMILES string;
on failure return None, otherwise the nine-field descriptor dict, with
NumCarbons computed as `mol.GetNumAtoms() - Descriptors.NumHeteroatoms(mol)`. -/
def calculate_properties {Mol : Type} (tk : Toolkit Mol) (smiles : String) :
    Option Props :=
  match tk.molFromSmiles smiles with
  | none => none
  | some mol => some
      { MW := tk.molWt mol
        HBA := tk.numHAcceptors mol
        HBD := tk.numHDonors mol
        LogP := tk.molLogP mol
        ROTB := tk.numRotatableBonds mol
        PSA := tk.calcTPSA mol
        NumRings := tk.ringCount mol
        NumCarbons := tk.getNumAtoms mol - tk.numHeteroatoms mol
        NumHeteroatoms := tk.numHeteroatoms mol }

/-! ## The PubChem name resolver step -/

/-- A compound returned by `pcp.get_compounds`: only its synonym list is
read by src/main.py. -/
structure PCCompound where
  synonyms : List String
deriving DecidableEq

/-- The name-lookup step of the screening loop in src/main.py (lines
358-364).  `pcp.get_compounds(smiles, 'smiles')` either raises (modelled as
`Except.error ()`, e.g. a network failure) or returns a list of compounds;
indexing `[0]` into an empty list raises IndexError, which the code catches
and turns into the raw-SMILES fallback; an empty synonym list also falls back
to the SMILES.  Any other exception escapes this step. -/
def resolveName (resolver : String → Except Unit (List PCCompound))
    (smiles : String) : Except Unit String :=
  match resolver smiles with
  | .error _ => .error ()
  | .ok [] => .ok smiles
  | .ok (c :: _) =>
      match c.synonyms with
      | [] => .ok smiles
      | n :: _ => .ok n

/-- One Structure Record of the Results Table: the dict appended to
`all_results` in src/main.py (name, SMILES, decision, descriptors, ordered
compliance results). -/
structure Record where
  name : String
  smiles : String
  isAccepted : Bool
  props : Props
  compliance : List (String × Bool)
deriving DecidableEq

/-- The per-row screening loop of `App.run_screening` (src/main.py lines
350-381), over the deduplicated SMILES strings in input order: a row whose
parse fails is skipped (`continue`); a resolver exception other than the
caught IndexError propagates and aborts the whole loop (`Except.error`);
otherwise the rule is evaluated and a record is appended. -/
def screenLoop {Mol : Type} (tk : Toolkit Mol)
    (resolver : String → Except Unit (List PCCompound)) (rule : String) :
    List String → Except Unit (List Record)
  | [] => .ok []
  | smiles :: rest =>
    match calculate_properties tk smiles with
    | none => screenLoop tk resolver rule rest
    | some props =>
      match resolveName resolver smiles with
      | .error _ => .error ()
      | .ok compound_name =>
        match screenLoop tk resolver rule rest with
        | .error e => .error e
        | .ok recs =>
            .ok ({ name := compound_name, smiles := smiles,
                   isAccepted := (evaluate_compound_rules props rule).2,
                   props := props,
                   compliance := (evaluate_compound_rules props rule).1 } :: recs)

/-! ## Deduplication (`df.drop_duplicates(subset=[col], keep='first')`) -/

/-- Helper for `dedupFirst`: drop every element whose key was already seen. -/
def dedupFirstAux {α β : Type} [DecidableEq β] (key : α → β) :
    List β → List α → List α
  | _, [] => []
  | seen, x :: xs =>
      if key x ∈ seen then dedupFirstAux key seen xs
      else x :: dedupFirstAux key (key x :: seen) xs

/-- `drop_duplicates(subset=[col], keep='first')` from src/main.py line 341:
keep the first row of each key in input order. -/
def dedupFirst {α β : Type} [DecidableEq β] (key : α → β) (l : List α) : List α :=
  dedupFirstAux key [] l

/-! ## Python `range` and the heatmap chunking -/

/-- Fuel-driven body of `pyRange`; the fuel `stop - start` suffices for any
positive step. -/
def pyRangeAux (step : Nat) : Nat → Nat → Nat → List Nat
  | _, _, 0 => []
  | start, stop, fuel + 1 =>
      if start < stop then start :: pyRangeAux step (start + step) stop fuel else []

/-- Python `range(start, stop, step)` for a non-negative step (a step of 0
raises in Python and is mapped to the empty list; src/main.py only uses
step = COMPOUNDS_PER_HEATMAP = 30). -/
def pyRange (start stop step : Nat) : List Nat :=
  if step = 0 then [] else pyRangeAux step start stop (stop - start)

/-- `COMPOUNDS_PER_HEATMAP` from src/main.py line 23. -/
def COMPOUNDS_PER_HEATMAP : Nat := 30

/-- The chunking of src/main.py lines 391-394:
`[df.iloc[i:i + COMPOUNDS_PER_HEATMAP] for i in range(0, len(df), COMPOUNDS_PER_HEATMAP)]`,
with `iloc[i:i+n]` modelled as `(l.drop i).take n`. -/
def heatmapChunks {α : Type} (n : Nat) (l : List α) : List (List α) :=
  (pyRange 0 l.length n).map (fun i => (l.drop i).take n)

/-! ## `App.run_screening` -/

/-- An input row: the cells of one line of the CSV/TSV file, keyed by column
name. -/
def InputRow : Type := List (String × String)

/-- The value of a row at a column (the column is checked to exist before any
row is read, so the default is never exercised on the checked column). -/
def cellAt (row : InputRow) (col : String) : String :=
  ((List.lookup col row).getD "")

/-- The parsed input table: the header and the data rows, in file order. -/
structure InputTable where
  columns : List String
  rows : List InputRow

/-- The run-level failures of `App.run_screening`, i.e. the exceptions its
`try` block can raise: the missing-column ValueError (line 338), a resolver
exception other than IndexError escaping the loop (line 361), the pandas
KeyError raised by `pd.DataFrame([]).set_index('Name')` when no row survived
(line 383), and the no-valid-compounds ValueError (line 398). -/
inductive ScreenError where
  | missingColumn : String → ScreenError
  | resolverError : ScreenError
  | emptyFrameKeyError : ScreenError
  | noValidCompounds : String → ScreenError
deriving DecidableEq

/-- The message of each run-level failure as the user sees it ("Error during
screening: ..." in the status label).  The pandas KeyError message is the one
pandas raises for `set_index('Name')` on a frame without that column. -/
def errMessage : ScreenError → String
  | .missingColumn col => "Column " ++ col ++ " not found."
  | .resolverError => "resolver exception"
  | .emptyFrameKeyError => "None of [Name] are in the columns"
  | .noValidCompounds rule => "No valid compounds found after screening using " ++ rule ++ "."

/-- The state `App.run_screening` leaves behind on success: the duplicate
count, the full results table, the accepted-row count, and the chunked 0/1
compliance projection (`df_results_int` split into `heatmap_chunks`). -/
structure Outcome where
  totalDuplicates : Nat
  results : List Record
  acceptedCount : Nat
  heatmap_chunks : List (List (List ℤ))
deriving DecidableEq

/-- The compliance-only 0/1 projection
`df_results_full[compliance_column_keys].astype(int)` of src/main.py line
389: one row of 0/1 values per record, in compliance-column order. -/
def complianceProjection (results : List Record) : List (List ℤ) :=
  results.map (fun r => r.compliance.map (fun kv => if kv.2 then (1 : ℤ) else 0))

/-- `App.run_screening` from src/main.py (lines 330-398), after the file has
been parsed into an `InputTable`: check the SMILES column, deduplicate
keeping first occurrences and count the removals, run the per-row loop,
build the results frame (`pd.DataFrame(all_results).set_index('Name')`
raises a KeyError when no row survived — modelled by `emptyFrameKeyError`),
project to the 0/1 compliance table, chunk it, and raise the
no-valid-compounds ValueError if there is no chunk. -/
def run_screening {Mol : Type} (tk : Toolkit Mol)
    (resolver : String → Except Unit (List PCCompound))
    (smiles_column_name rule : String) (t : InputTable) :
    Except ScreenError Outcome :=
  if smiles_column_name ∈ t.columns then
    match screenLoop tk resolver rule
        ((dedupFirst (fun r => cellAt r smiles_column_name) t.rows).map
          (fun r => cellAt r smiles_column_name)) with
    | .error _ => .error .resolverError
    | .ok results =>
      if results.isEmpty then .error .emptyFrameKeyError
      else if (heatmapChunks COMPOUNDS_PER_HEATMAP (complianceProjection results)).isEmpty then
        .error (.noValidCompounds rule)
      else .ok
        { totalDuplicates :=
            t.rows.length - (dedupFirst (fun r => cellAt r smiles_column_name) t.rows).length
          results := results
          acceptedCount := (results.filter (fun r => r.isAccepted)).length
          heatmap_chunks := heatmapChunks COMPOUNDS_PER_HEATMAP (complianceProjection results) }
  else .error (.missingColumn smiles_column_name)

/-! ## `filter_accepted_candidates` -/

/-- A pandas cell as far as this program reads one: a boolean, an integer, a
rational or a string. -/
inductive Cell where
  | b : Bool → Cell
  | z : ℤ → Cell
  | q : ℚ → Cell
  | s : String → Cell
deriving DecidableEq

/-- Python `cell == True` as pandas applies it elementwise: True for the
boolean True and for numeric 1 (Python booleans are numbers), False
otherwise. -/
def cellEqTrue : Cell → Bool
  | .b v => v
  | .z n => n == 1
  | .q x => x == 1
  | .s _ => false

/-- A generic results frame as `filter_accepted_candidates` receives one:
named columns and rows of cells. -/
structure DFrame where
  columns : List String
  rows : List (List Cell)
deriving DecidableEq

/-- The decision cell of a row: the entry in the IsAccepted column. -/
def acceptedCell (f : DFrame) (row : List Cell) : Bool :=
  cellEqTrue ((row.get? (f.columns.indexOf "IsAccepted")).getD (.b false))

/-- `filter_accepted_candidates(df_results_full)` from src/main.py lines
112-116: None or a frame without the IsAccepted column yields an empty
frame; otherwise the rows whose IsAccepted cell compares equal to True, as a
copy. -/
def filter_accepted_candidates (df : Option DFrame) : DFrame :=
  match df with
  | some f =>
      if "IsAccepted" ∈ f.columns then
        { columns := f.columns, rows := f.rows.filter (fun r => acceptedCell f r) }
      else { columns := [], rows := [] }
  | none => { columns := [], rows := [] }

/-! ## Substring occurrence (for failure-message claims) -/

/-- `leadsWith p l`: the character list `l` starts with `p`. -/
def leadsWith : List Char → List Char → Bool
  | [], _ => true
  | _ :: _, [] => false
  | a :: as, b :: bs => a == b && leadsWith as bs

/-- `hasSub p l`: `p` occurs contiguously inside `l`. -/
def hasSub (p : List Char) : List Char → Bool
  | [] => leadsWith p []
  | c :: t => leadsWith p (c :: t) || hasSub p t

theorem leadsWith_iff : ∀ (p l : List Char), leadsWith p l = true ↔ ∃ b, l = p ++ b := by
  intro p
  induction p with
  | nil => intro l; simp [leadsWith]
  | cons a as ih =>
    intro l
    cases l with
    | nil => simp [leadsWith]
    | cons c cs =>
      simp only [leadsWith, Bool.and_eq_true, beq_iff_eq, ih cs]
      constructor
      · rintro ⟨rfl, b, rfl⟩
        exact ⟨b, rfl⟩
      · rintro ⟨b, hb⟩
        rw [List.cons_append] at hb
        injection hb with h1 h2
        exact ⟨h1.symm, b, h2⟩

theorem hasSub_iff : ∀ (p l : List Char), hasSub p l = true ↔ ∃ a b, l = a ++ p ++ b := by
  intro p l
  induction l with
  | nil =>
    simp only [hasSub, leadsWith_iff]
    constructor
    · rintro ⟨b, hb⟩
      exact ⟨[], b, by simpa using hb⟩
    · rintro ⟨a, b, hb⟩
      rcases List.append_eq_nil.mp hb.symm with ⟨hap, hb0⟩
      rcases List.append_eq_nil.mp hap with ⟨ha0, hp0⟩
      exact ⟨[], by simp [hp0]⟩
  | cons c cs ih =>
    simp only [hasSub, Bool.or_eq_true, leadsWith_iff, ih]
    constructor
    · rintro (⟨b, hb⟩ | ⟨a, b, hb⟩)
      · exact ⟨[], b, by simpa using hb⟩
      · exact ⟨c :: a, b, by simp [hb]⟩
    · rintro ⟨a, b, hb⟩
      cases a with
      | nil =>
        left
        exact ⟨b, by simpa using hb⟩
      | cons a0 as =>
        right
        rw [List.cons_append, List.cons_append] at hb
        injection hb with h1 h2
        exact ⟨as, b, h2⟩

/-! ## Lemmas about deduplication -/

theorem dedupFirstAux_sublist {α β : Type} [DecidableEq β] (key : α → β) :
    ∀ (seen : List β) (l : List α), (dedupFirstAux key seen l).Sublist l := by
  intro seen l
  induction l generalizing seen with
  | nil => exact List.Sublist.refl _
  | cons x xs ih =>
    simp only [dedupFirstAux]
    by_cases h : key x ∈ seen
    · rw [if_pos h]; exact List.Sublist.cons x (ih seen)
    · rw [if_neg h]; exact List.Sublist.cons₂ x (ih (key x :: seen))

theorem mem_map_dedupFirstAux {α β : Type} [DecidableEq β] (key : α → β) (b : β) :
    ∀ (seen : List β) (l : List α),
      b ∈ (dedupFirstAux key seen l).map key ↔ b ∈ l.map key ∧ b ∉ seen := by
  intro seen l
  induction l generalizing seen with
  | nil => simp [dedupFirstAux]
  | cons x xs ih =>
    simp only [dedupFirstAux]
    by_cases h : key x ∈ seen
    · rw [if_pos h, ih seen]
      simp only [List.map_cons, List.mem_cons]
      have hx : b = key x → b ∈ seen := fun e => e ▸ h
      tauto
    · rw [if_neg h]
      simp only [List.map_cons, List.mem_cons, ih (key x :: seen), not_or]
      by_cases hb : b = key x
      · subst hb; tauto
      · tauto

theorem nodup_map_dedupFirstAux {α β : Type} [DecidableEq β] (key : α → β) :
    ∀ (seen : List β) (l : List α), ((dedupFirstAux key seen l).map key).Nodup := by
  intro seen l
  induction l generalizing seen with
  | nil => simp [dedupFirstAux]
  | cons x xs ih =>
    simp only [dedupFirstAux]
    by_cases h : key x ∈ seen
    · rw [if_pos h]; exact ih seen
    · rw [if_neg h]
      simp only [List.map_cons, List.nodup_cons]
      refine ⟨fun hc => ?_, ih (key x :: seen)⟩
      exact ((mem_map_dedupFirstAux key (key x) (key x :: seen) xs).mp hc).2
        (List.mem_cons_self _ _)

theorem dedupFirstAux_find {α β : Type} [DecidableEq β] (key : α → β) :
    ∀ (seen : List β) (l : List α) (x : α), x ∈ dedupFirstAux key seen l →
      l.find? (fun y => decide (key y = key x)) = some x := by
  intro seen l
  induction l generalizing seen with
  | nil => intro x hx; simp [dedupFirstAux] at hx
  | cons h0 t ih =>
    intro x hx
    simp only [dedupFirstAux] at hx
    by_cases hmem : key h0 ∈ seen
    · rw [if_pos hmem] at hx
      have hkx : key x ∉ seen :=
        ((mem_map_dedupFirstAux key (key x) seen t).mp (List.mem_map_of_mem key hx)).2
      have hne : ¬ key h0 = key x := fun e => hkx (e ▸ hmem)
      rw [List.find?_cons_of_neg _ (by simpa using hne)]
      exact ih seen x hx
    · rw [if_neg hmem] at hx
      rcases List.mem_cons.mp hx with rfl | hx2
      · exact List.find?_cons_of_pos _ (by simp)
      · have hkx : key x ∉ key h0 :: seen :=
          ((mem_map_dedupFirstAux key (key x) (key h0 :: seen) t).mp
            (List.mem_map_of_mem key hx2)).2
        have hne : ¬ key h0 = key x := fun e => hkx (e ▸ List.mem_cons_self _ _)
        rw [List.find?_cons_of_neg _ (by simpa using hne)]
        exact ih (key h0 :: seen) x hx2

/-- Claim C3: `run_screening` deduplicates rows by the structure-key column
keeping exactly the first occurrence in input order (the kept rows are a
subsequence of the input, their keys are pairwise distinct, each kept row is
the first row of the input with its key, every input key is represented),
and the reported duplicate count is the initial row count minus the unique
row count. -/
theorem dedup_keeps_first {α β : Type} [DecidableEq β] (key : α → β) (l : List α) :
    (dedupFirst key l).Sublist l ∧
    ((dedupFirst key l).map key).Nodup ∧
    (∀ x ∈ dedupFirst key l, l.find? (fun y => decide (key y = key x)) = some x) ∧
    (∀ y ∈ l, key y ∈ (dedupFirst key l).map key) ∧
    (∀ {Mol : Type} (tk : Toolkit Mol)
      (resolver : String → Except Unit (List PCCompound)) (col rule : String)
      (t : InputTable) (o : Outcome),
      run_screening tk resolver col rule t = .ok o →
      o.totalDuplicates =
        t.rows.length - (dedupFirst (fun r => cellAt r col) t.rows).length) := by
  refine ⟨dedupFirstAux_sublist key [] l, nodup_map_dedupFirstAux key [] l,
    dedupFirstAux_find key [] l, ?_, ?_⟩
  · intro y hy
    exact (mem_map_dedupFirstAux key (key y) [] l).mpr
      ⟨List.mem_map_of_mem key hy, List.not_mem_nil _⟩
  · intro Mol tk resolver col rule t o h
    unfold run_screening at h
    split at h
    · split at h
      · exact absurd h (by simp)
      · split at h
        · exact absurd h (by simp)
        · split at h
          · exact absurd h (by simp)
          · rw [Except.ok.injEq] at h
            rw [← h]
    · exact absurd h (by simp)

/-! ## Lemmas about `pyRange` and the chunking -/

theorem pyRangeAux_fuel (step : Nat) (hstep : 0 < step) :
    ∀ (f1 f2 start stop : Nat), stop - start ≤ f1 → stop - start ≤ f2 →
      pyRangeAux step start stop f1 = pyRangeAux step start stop f2 := by
  intro f1
  induction f1 with
  | zero =>
    intro f2 start stop h1 h2
    have hlt : ¬ start < stop := by omega
    cases f2 with
    | zero => rfl
    | succ f => simp [pyRangeAux, hlt]
  | succ f ih =>
    intro f2 start stop h1 h2
    cases f2 with
    | zero =>
      have hlt : ¬ start < stop := by omega
      simp [pyRangeAux, hlt]
    | succ f2 =>
      simp only [pyRangeAux]
      by_cases hlt : start < stop
      · rw [if_pos hlt, if_pos hlt, ih f2 (start + step) stop (by omega) (by omega)]
      · rw [if_neg hlt, if_neg hlt]

theorem pyRange_cons {start stop step : Nat} (hstep : 0 < step) (h : start < stop) :
    pyRange start stop step = start :: pyRange (start + step) stop step := by
  unfold pyRange
  rw [if_neg (by omega), if_neg (by omega)]
  have h1 : stop - start = (stop - start - 1) + 1 := by omega
  rw [h1]
  simp only [pyRangeAux, if_pos h]
  congr 1
  exact pyRangeAux_fuel step hstep _ _ _ _ (by omega) (by omega)

theorem pyRange_nil {start stop : Nat} (step : Nat) (h : ¬ start < stop) :
    pyRange start stop step = [] := by
  unfold pyRange
  by_cases hz : step = 0
  · rw [if_pos hz]
  · rw [if_neg hz]
    have h0 : stop - start = 0 := by omega
    rw [h0]
    rfl

theorem pyRangeAux_shift (step k : Nat) :
    ∀ (fuel s stop : Nat),
      pyRangeAux step (s + k) stop fuel =
        (pyRangeAux step s (stop - k) fuel).map (· + k) := by
  intro fuel
  induction fuel with
  | zero => intro s stop; rfl
  | succ f ih =>
    intro s stop
    simp only [pyRangeAux]
    by_cases h : s + k < stop
    · rw [if_pos h, if_pos (by omega)]
      simp only [List.map_cons]
      have harg : s + k + step = s + step + k := by omega
      rw [harg, ih (s + step) stop]
    · rw [if_neg h, if_neg (by omega)]
      rfl

theorem pyRange_shift (s k stop step : Nat) :
    pyRange (s + k) stop step = (pyRange s (stop - k) step).map (· + k) := by
  unfold pyRange
  by_cases hz : step = 0
  · simp [hz]
  · rw [if_neg hz, if_neg hz]
    have hfuel : stop - (s + k) = stop - k - s := by omega
    rw [hfuel, pyRangeAux_shift]

theorem heatmapChunks_nil {α : Type} (n : Nat) : heatmapChunks n ([] : List α) = [] := by
  unfold heatmapChunks
  rw [List.length_nil, pyRange_nil n (by omega)]
  rfl

theorem heatmapChunks_cons {α : Type} (n : Nat) (hn : 0 < n) (l : List α) (hl : l ≠ []) :
    heatmapChunks n l = l.take n :: heatmapChunks n (l.drop n) := by
  unfold heatmapChunks
  have hlen : 0 < l.length := List.length_pos.mpr hl
  rw [pyRange_cons hn hlen]
  simp only [List.map_cons, List.drop_zero]
  congr 1
  have hshift : (0 + n : Nat) = 0 + n := rfl
  rw [show pyRange (0 + n) l.length n = (pyRange 0 (l.length - n) n).map (· + n) from
    pyRange_shift 0 n l.length n]
  rw [List.length_drop, List.map_map]
  congr 1
  funext i
  simp only [Function.comp_apply]
  rw [List.drop_drop, Nat.add_comm n i]

theorem heatmapChunks_ne_nil {α : Type} (n : Nat) (hn : 0 < n) (l : List α)
    (hl : l ≠ []) : heatmapChunks n l ≠ [] := by
  rw [heatmapChunks_cons n hn l hl]
  exact List.cons_ne_nil _ _

theorem flatten_heatmapChunks {α : Type} (n : Nat) (hn : 0 < n) :
    ∀ l : List α, (heatmapChunks n l).flatten = l := by
  have main : ∀ (L : Nat) (l : List α), l.length = L → (heatmapChunks n l).flatten = l := by
    intro L
    induction L using Nat.strong_induction_on with
    | _ L ih =>
      intro l hl
      rcases eq_or_ne l [] with rfl | hne
      · simp [heatmapChunks_nil]
      · have hpos : 0 < l.length := List.length_pos.mpr hne
        have hlt : (l.drop n).length < L := by
          rw [List.length_drop]; omega
        rw [heatmapChunks_cons n hn l hne, List.flatten_cons,
          ih (l.drop n).length hlt (l.drop n) rfl, List.take_append_drop]
  intro l
  exact main l.length l rfl

theorem mem_heatmapChunks_length {α : Type} (n : Nat) (hn : 0 < n) :
    ∀ (l : List α), ∀ c ∈ heatmapChunks n l, 0 < c.length ∧ c.length ≤ n := by
  have main : ∀ (L : Nat) (l : List α), l.length = L →
      ∀ c ∈ heatmapChunks n l, 0 < c.length ∧ c.length ≤ n := by
    intro L
    induction L using Nat.strong_induction_on with
    | _ L ih =>
      intro l hl c hc
      rcases eq_or_ne l [] with rfl | hne
      · rw [heatmapChunks_nil] at hc
        exact absurd hc (List.not_mem_nil c)
      · have hpos : 0 < l.length := List.length_pos.mpr hne
        rw [heatmapChunks_cons n hn l hne] at hc
        rcases List.mem_cons.mp hc with rfl | hc2
        · rw [List.length_take]
          omega
        · have hlt : (l.drop n).length < L := by
            rw [List.length_drop]; omega
          exact ih (l.drop n).length hlt (l.drop n) rfl c hc2
  intro l
  exact main l.length l rfl

theorem heatmapChunks_dropLast {α : Type} (n : Nat) (hn : 0 < n) :
    ∀ (l : List α), ∀ c ∈ (heatmapChunks n l).dropLast, c.length = n := by
  have main : ∀ (L : Nat) (l : List α), l.length = L →
      ∀ c ∈ (heatmapChunks n l).dropLast, c.length = n := by
    intro L
    induction L using Nat.strong_induction_on with
    | _ L ih =>
      intro l hl c hc
      rcases eq_or_ne l [] with rfl | hne
      · rw [heatmapChunks_nil] at hc
        exact absurd hc (List.not_mem_nil c)
      · have hpos : 0 < l.length := List.length_pos.mpr hne
        rw [heatmapChunks_cons n hn l hne] at hc
        by_cases hd : l.drop n = []
        · rw [hd, heatmapChunks_nil] at hc
          simp at hc
        · have hlong : n < l.length := by
            have := List.length_pos.mpr hd
            rw [List.length_drop] at this
            omega
          rw [heatmapChunks_cons n hn (l.drop n) hd, List.dropLast_cons₂] at hc
          rcases List.mem_cons.mp hc with rfl | hc2
          · rw [List.length_take]
            omega
          · rw [← heatmapChunks_cons n hn (l.drop n) hd] at hc2
            have hlt : (l.drop n).length < L := by
              rw [List.length_drop]; omega
            exact ih (l.drop n).length hlt (l.drop n) rfl c hc2
  intro l
  exact main l.length l rfl

/-- Claim C4: the compliance projection is partitioned by `heatmapChunks`
into contiguous chunks of exactly `COMPOUNDS_PER_HEATMAP` = 30 rows, except
a possibly smaller (but non-empty) last chunk; row order is preserved and
concatenating all chunks reproduces the projection exactly; a projection of
35 rows yields chunks of sizes 30 and 5. -/
theorem chunk_partition {α : Type} (l : List α) :
    (heatmapChunks COMPOUNDS_PER_HEATMAP l).flatten = l ∧
    (∀ c ∈ (heatmapChunks COMPOUNDS_PER_HEATMAP l).dropLast,
      c.length = COMPOUNDS_PER_HEATMAP) ∧
    (∀ c ∈ heatmapChunks COMPOUNDS_PER_HEATMAP l,
      0 < c.length ∧ c.length ≤ COMPOUNDS_PER_HEATMAP) ∧
    (l.length = 35 →
      (heatmapChunks COMPOUNDS_PER_HEATMAP l).map List.length = [30, 5]) := by
  have h30 : 0 < COMPOUNDS_PER_HEATMAP := by decide
  refine ⟨flatten_heatmapChunks COMPOUNDS_PER_HEATMAP h30 l,
    heatmapChunks_dropLast COMPOUNDS_PER_HEATMAP h30 l,
    mem_heatmapChunks_length COMPOUNDS_PER_HEATMAP h30 l, ?_⟩
  intro h35
  have hne : l ≠ [] := by
    intro hemp
    rw [hemp] at h35
    simp at h35
  have hdne : l.drop COMPOUNDS_PER_HEATMAP ≠ [] := by
    intro hemp
    have := congrArg List.length hemp
    rw [List.length_drop, h35] at this
    simp [COMPOUNDS_PER_HEATMAP] at this
  have hddnil : (l.drop COMPOUNDS_PER_HEATMAP).drop COMPOUNDS_PER_HEATMAP = [] := by
    have : ((l.drop COMPOUNDS_PER_HEATMAP).drop COMPOUNDS_PER_HEATMAP).length = 0 := by
      rw [List.length_drop, List.length_drop, h35]
      decide
    exact List.length_eq_zero.mp this
  rw [heatmapChunks_cons COMPOUNDS_PER_HEATMAP h30 l hne,
    heatmapChunks_cons COMPOUNDS_PER_HEATMAP h30 (l.drop COMPOUNDS_PER_HEATMAP) hdne,
    hddnil, heatmapChunks_nil]
  simp only [List.map_cons, List.map_nil, List.length_take, List.length_drop, h35]
  decide

/-- Witness for C4: a concrete 35-row projection is chunked into sizes 30
and 5, and concatenating the chunks reproduces it. -/
theorem chunk_partition_witness :
    (heatmapChunks COMPOUNDS_PER_HEATMAP (List.range 35)).map List.length = [30, 5] ∧
    (heatmapChunks COMPOUNDS_PER_HEATMAP (List.range 35)).flatten = List.range 35 :=
  ⟨(chunk_partition (List.range 35)).2.2.2 (List.length_range 35),
   (chunk_partition (List.range 35)).1⟩

/-! ## Concrete collaborators for witnesses and counterexamples -/

/-- The all-zero descriptor vector. -/
def propsZero : Props := ⟨0, 0, 0, 0, 0, 0, 0, 0, 0⟩

/-- A toolkit on which every SMILES other than "bad" parses and every
descriptor is zero. -/
def tkZero : Toolkit Unit where
  molFromSmiles := fun s => if s = "bad" then none else some ()
  molWt := fun _ => 0
  numHAcceptors := fun _ => 0
  numHDonors := fun _ => 0
  molLogP := fun _ => 0
  numRotatableBonds := fun _ => 0
  calcTPSA := fun _ => 0
  ringCount := fun _ => 0
  getNumAtoms := fun _ => 0
  numHeteroatoms := fun _ => 0

/-- A toolkit on which every parse fails. -/
def tkNone : Toolkit Unit where
  molFromSmiles := fun _ => none
  molWt := fun _ => 0
  numHAcceptors := fun _ => 0
  numHDonors := fun _ => 0
  molLogP := fun _ => 0
  numRotatableBonds := fun _ => 0
  calcTPSA := fun _ => 0
  ringCount := fun _ => 0
  getNumAtoms := fun _ => 0
  numHeteroatoms := fun _ => 0

/-- A resolver that returns no compounds (the caught-IndexError path). -/
def resolverEmpty : String → Except Unit (List PCCompound) := fun _ => .ok []

/-- A resolver that raises an exception other than IndexError (for example a
network failure inside `pcp.get_compounds`). -/
def resolverRaise : String → Except Unit (List PCCompound) := fun _ => .error ()

/-! ## Claim C5: parse failures are skipped, never raised -/

/-- Claim C5: for a structure string whose parse fails, the descriptor
computation returns the failure value None rather than raising, and the
screening loop produces the same outcome as if the row were absent: the row
is excluded from the Results Table and the batch is not aborted (no record
of the Results Table ever carries that string). -/
theorem parse_failure_skipped {Mol : Type} (tk : Toolkit Mol)
    (resolver : String → Except Unit (List PCCompound)) (rule s : String)
    (hfail : tk.molFromSmiles s = none) :
    calculate_properties tk s = none ∧
    (∀ pre post : List String,
      screenLoop tk resolver rule (pre ++ s :: post) =
        screenLoop tk resolver rule (pre ++ post)) ∧
    (∀ (rows : List String) (recs : List Record),
      screenLoop tk resolver rule rows = .ok recs →
      ∀ r ∈ recs, r.smiles ≠ s) := by
  have hcalc : calculate_properties tk s = none := by
    unfold calculate_properties
    rw [hfail]
  refine ⟨hcalc, ?_, ?_⟩
  · intro pre post
    induction pre with
    | nil =>
      simp only [List.nil_append, screenLoop, hcalc]
    | cons x xs ih =>
      simp only [List.cons_append]
      cases hcx : calculate_properties tk x with
      | none =>
        simp only [screenLoop, hcx, List.append_eq]
        exact ih
      | some p =>
        cases hrx : resolveName resolver x with
        | error e => simp only [screenLoop, hcx, hrx]
        | ok nm => simp only [screenLoop, hcx, hrx, List.append_eq, ih]
  · intro rows
    induction rows with
    | nil =>
      intro recs h r hr
      simp only [screenLoop, Except.ok.injEq] at h
      subst h
      exact absurd hr (List.not_mem_nil r)
    | cons x xs ih =>
      intro recs h r hr
      simp only [screenLoop] at h
      split at h
      · exact ih recs h r hr
      · rename_i props hx
        split at h
        · exact Except.noConfusion h
        · rename_i nm hnm
          split at h
          · exact Except.noConfusion h
          · rename_i recs0 hrec
            rw [Except.ok.injEq] at h
            subst h
            rcases List.mem_cons.mp hr with rfl | hr2
            · intro hs
              have hxs : x = s := hs
              rw [hxs, hcalc] at hx
              exact Option.noConfusion hx
            · exact ih recs0 hrec r hr2

/-- Witness for C5: with a toolkit on which "bad" fails to parse, the
descriptor computation returns None and the loop outcome is unchanged by
the failing row. -/
theorem parse_failure_skipped_witness :
    calculate_properties tkZero "bad" = none ∧
    screenLoop tkZero resolverEmpty lipinskiRule ["ok", "bad"] =
      screenLoop tkZero resolverEmpty lipinskiRule ["ok"] := by
  have h := parse_failure_skipped tkZero resolverEmpty lipinskiRule "bad" (by decide)
  exact ⟨h.1, h.2.1 ["ok"] []⟩

/-! ## Claim C7: the name-resolver step -/

/-- Counterexample to claim C7 as stated: a resolver that errors (any
exception other than the IndexError raised by indexing an empty result) is
fatal, contradicting "the pipeline does not fail": the concrete run ends in
the run-level resolver failure instead of falling back to the raw structure
string. -/
theorem resolver_error_aborts :
    run_screening tkZero resolverRaise "SMILES" lipinskiRule
      ⟨["SMILES"], [[("SMILES", "ok")]]⟩ = .error .resolverError := by
  rfl

/-- Claim C7 as amended: if the resolver returns no result (an empty
compound list, or a first compound with no synonyms) the display name falls
back to the raw structure string and screening continues; a first synonym is
used when present; but if the resolver raises, the surviving row makes the
whole screening loop fail instead of falling back. -/
theorem resolver_no_result_fallback
    (resolver : String → Except Unit (List PCCompound)) (s : String) :
    (resolver s = .ok [] → resolveName resolver s = .ok s) ∧
    (∀ cs, resolver s = .ok ({ synonyms := [] } :: cs) →
      resolveName resolver s = .ok s) ∧
    (∀ nm ns cs, resolver s = .ok ({ synonyms := nm :: ns } :: cs) →
      resolveName resolver s = .ok nm) ∧
    (resolver s = .error () →
      ∀ {Mol : Type} (tk : Toolkit Mol) (rule : String) (props : Props),
        calculate_properties tk s = some props →
        ∀ pre post : List String,
          screenLoop tk resolver rule (pre ++ s :: post) = .error ()) := by
  refine ⟨?_, ?_, ?_, ?_⟩
  · intro h; unfold resolveName; rw [h]
  · intro cs h; unfold resolveName; rw [h]
  · intro nm ns cs h; unfold resolveName; rw [h]
  · intro herr Mol tk rule props hcalc pre post
    have hres : resolveName resolver s = .error () := by
      unfold resolveName; rw [herr]
    induction pre with
    | nil =>
      simp only [List.nil_append, screenLoop, hcalc, hres]
    | cons x xs ih =>
      rw [List.cons_append]
      cases hcx : calculate_properties tk x with
      | none =>
        simp only [screenLoop, hcx]
        exact ih
      | some p =>
        cases hrx : resolveName resolver x with
        | error e => simp only [screenLoop, hcx, hrx]
        | ok nm => simp only [screenLoop, hcx, hrx, ih]

/-- Witness for the amended C7: the empty-result resolver falls back to the
raw SMILES, and the raising resolver makes the loop fail on a parseable
row. -/
theorem resolver_no_result_fallback_witness :
    resolveName resolverEmpty "CCO" = .ok "CCO" ∧
    screenLoop tkZero resolverRaise lipinskiRule ["ok"] = .error () := by
  refine ⟨(resolver_no_result_fallback resolverEmpty "CCO").1 rfl, ?_⟩
  exact (resolver_no_result_fallback resolverRaise "ok").2.2.2 rfl tkZero
    lipinskiRule propsZero (by decide) [] []

/-! ## Claim C8: a missing structure-key column aborts before any row -/

/-- Claim C8: when the configured structure-key column is not among the
input table's columns, the run fails with the missing-column error, and the
outcome is the same whatever the data rows are — no row is processed. -/
theorem missing_column_aborts {Mol : Type} (tk : Toolkit Mol)
    (resolver : String → Except Unit (List PCCompound)) (col rule : String)
    (cols : List String) (h : col ∉ cols) :
    ∀ rows rows2 : List InputRow,
      run_screening tk resolver col rule ⟨cols, rows⟩ = .error (.missingColumn col) ∧
      run_screening tk resolver col rule ⟨cols, rows⟩ =
        run_screening tk resolver col rule ⟨cols, rows2⟩ := by
  have key : ∀ rows : List InputRow,
      run_screening tk resolver col rule ⟨cols, rows⟩ = .error (.missingColumn col) := by
    intro rows
    unfold run_screening
    rw [if_neg h]
  intro rows rows2
  exact ⟨key rows, (key rows).trans (key rows2).symm⟩

/-- Witness for C8: asking for the column "SMILES" in a table whose only
column is "smiles" fails with the missing-column error. -/
theorem missing_column_aborts_witness :
    run_screening tkZero resolverEmpty "SMILES" lipinskiRule
      ⟨["smiles"], [[("smiles", "ok")]]⟩ = .error (.missingColumn "SMILES") :=
  (missing_column_aborts tkZero resolverEmpty "SMILES" lipinskiRule ["smiles"]
    (by decide) [[("smiles", "ok")]] []).1

/-! ## Claim C6: the empty-result failure -/

/-- Claim C6 (against the code): when zero valid rows survive, the run does
fail at run level, but with the pandas KeyError of
`pd.DataFrame([]).set_index('Name')` — whose message does not contain the
active rule name — because that exception preempts the intended
no-valid-compounds ValueError (whose message does contain the rule name);
that guard is unreachable: `run_screening` can never return it. -/
theorem empty_result_keyerror :
    run_screening tkNone resolverEmpty "SMILES" lipinskiRule
      ⟨["SMILES"], [[("SMILES", "xx")]]⟩ = .error .emptyFrameKeyError ∧
    (¬ ∃ a b : List Char, (errMessage ScreenError.emptyFrameKeyError).data =
        a ++ lipinskiRule.data ++ b) ∧
    (∃ a b : List Char, (errMessage (ScreenError.noValidCompounds lipinskiRule)).data =
        a ++ lipinskiRule.data ++ b) ∧
    (∀ {Mol : Type} (tk : Toolkit Mol)
      (resolver : String → Except Unit (List PCCompound)) (col rule r : String)
      (t : InputTable),
      run_screening tk resolver col rule t ≠ .error (.noValidCompounds r)) := by
  refine ⟨by rfl, fun hc => absurd ((hasSub_iff _ _).mpr hc) (by decide),
    (hasSub_iff _ _).mp (by decide), ?_⟩
  intro Mol tk resolver col rule r t h
  unfold run_screening at h
  split at h
  · split at h
    · simp at h
    · split at h
      · simp at h
      · split at h
        · rename_i results hloop hre hch
          have hres : results ≠ [] := by
            simpa [List.isEmpty_iff] using hre
          have hproj : complianceProjection results ≠ [] := by
            unfold complianceProjection
            simpa using hres
          have := heatmapChunks_ne_nil COMPOUNDS_PER_HEATMAP (by decide)
            (complianceProjection results) hproj
          rw [List.isEmpty_iff] at hch
          exact this hch
        · simp at h
  · simp at h

/-! ## Claim C10: the accepted-candidates filter -/

/-- Claim C10: `filter_accepted_candidates` is total: None and a frame
without the IsAccepted column yield the empty frame, and otherwise the
result keeps the columns and consists exactly of the input rows whose
IsAccepted cell compares equal to True, in input order (a subsequence of the
input rows). -/
theorem filter_accepted_total :
    (filter_accepted_candidates none = ⟨[], []⟩) ∧
    (∀ f : DFrame, "IsAccepted" ∉ f.columns →
      filter_accepted_candidates (some f) = ⟨[], []⟩) ∧
    (∀ f : DFrame, "IsAccepted" ∈ f.columns →
      (filter_accepted_candidates (some f)).columns = f.columns ∧
      ((filter_accepted_candidates (some f)).rows).Sublist f.rows ∧
      (∀ r ∈ (filter_accepted_candidates (some f)).rows, acceptedCell f r = true) ∧
      (∀ r ∈ f.rows, acceptedCell f r = true →
        r ∈ (filter_accepted_candidates (some f)).rows)) := by
  refine ⟨rfl, ?_, ?_⟩
  · intro f h
    simp only [filter_accepted_candidates]
    rw [if_neg h]
  · intro f h
    simp only [filter_accepted_candidates]
    rw [if_pos h]
    refine ⟨rfl, List.filter_sublist f.rows, ?_, ?_⟩
    · intro r hr
      exact (List.mem_filter.mp hr).2
    · intro r hr ha
      exact List.mem_filter.mpr ⟨hr, ha⟩
